import Mathlib

/-!
Verification of the bill-splitting core of the Spicy-Box/bill-split-be
repository (src/app/controllers/bills_router.py and the data model in
src/app/models/bills.py, src/app/models/events.py, src/app/dto/bills.py,
src/app/dto/base.py).

Money is modelled as exact rationals.  Python's `round(x, 2)` is modelled
as rounding at two decimal places (the spec fixes rounding to two decimals
and allows either half-even or half-up tie-breaking; `round_share` below
rounds half-up, and no claim depends on the tie direction).

Pydantic class annotations are treated as documentation of the intended
shapes; the embedding follows the data flow that the router code actually
performs.  Where the router stores a value of a different shape than the
one produced elsewhere (the manual split stores a bare string in the
`user_name` field that the other two policies fill with a `Participants`
object), a sum type `PName` records which shape was stored, and consumers
that would access attributes on the wrong shape are modelled as failing
(Python would raise `AttributeError`).
-/

/-- Participants (src/app/dto/base.py): display name, optional registered
user id (`PydanticObjectId` rendered as its string form), guest flag. -/
structure Participants where
  name : String
  user_id : Option String := none
  is_guest : Bool := true
  deriving DecidableEq, Repr, Inhabited

/-- BillSplitType enum (src/app/models/bills.py). -/
inductive BillSplitType where
  | by_item
  | equally
  | manual
  deriving DecidableEq, Repr, Inhabited

/-- ItemSplitType enum (src/app/models/bills.py). -/
inductive ItemSplitType where
  | everyone
  | custom
  deriving DecidableEq, Repr, Inhabited

/-- Conversion `ItemSplitType(value)` from the raw string; `none` models the
`ValueError` Python raises for a string outside the enum. -/
def ItemSplitType.ofString : String → Option ItemSplitType
  | "everyone" => some ItemSplitType.everyone
  | "custom" => some ItemSplitType.custom
  | _ => none

/-- Value stored in the `user_name` field of a `UserShare`.  The by-item and
equal processors store a `Participants` object; `_process_manual` stores the
raw `user_name` string of the `ManualShareIn` entry. -/
inductive PName where
  | part (p : Participants)
  | raw (s : String)
  deriving DecidableEq, Repr, Inhabited

/-- True when the stored `user_name` is a `Participants` object. -/
def PName.isPart : PName → Bool
  | PName.part _ => true
  | PName.raw _ => false

/-- Entry of a raw item's `split_between` list in `_process_by_item`: the
loop accepts a `Participants` instance, a JSON dict with the `Participants`
fields, or any other value (turned into a guest named by its string form). -/
inductive RawParticipant where
  | obj (p : Participants)
  | dict (p : Participants)
  | other (s : String)
  deriving DecidableEq, Repr, Inhabited

/-- Normalisation performed by the `for p in raw_split_between` loop of
`_process_by_item`. -/
def RawParticipant.normalize : RawParticipant → Participants
  | RawParticipant.obj p => p
  | RawParticipant.dict p => p
  | RawParticipant.other s => { name := s, user_id := none, is_guest := true }

/-- Raw item dict of a `BillCreateIn` payload (`items: List[dict]`); each
field is `none` when the corresponding key is missing from the dict. -/
structure RawItem where
  name : Option String := none
  quantity : Option ℚ := none
  unit_price : Option ℚ := none
  split_type : Option String := none
  split_between : Option (List RawParticipant) := none
  deriving DecidableEq, Repr, Inhabited

/-- ManualShareIn (src/app/dto/bills.py). -/
structure ManualShareIn where
  user_name : String
  amount : ℚ
  deriving DecidableEq, Repr, Inhabited

/-- BillCreateIn (src/app/dto/bills.py). -/
structure BillCreateIn where
  event_id : String
  title : String
  note : Option String := none
  bill_split_type : BillSplitType
  items : List RawItem
  tax : ℚ := 0
  paid_by : String
  manual_shares : Option (List ManualShareIn) := none
  deriving DecidableEq, Repr, Inhabited

/-- BillUpdateIn (src/app/dto/bills.py); `none` models a field absent from
the request (`model_dump(exclude_unset=True)` drops it). -/
structure BillUpdateIn where
  title : Option String := none
  note : Option String := none
  deriving DecidableEq, Repr, Inhabited

/-- BillItem embedded model (src/app/models/bills.py). -/
structure BillItem where
  id : String
  name : String
  quantity : ℚ
  unit_price : ℚ
  total_price : ℚ
  split_type : Option ItemSplitType := none
  split_between : Option (List Participants) := none
  deriving DecidableEq, Repr, Inhabited

/-- UserShare embedded model (src/app/models/bills.py). -/
structure UserShare where
  user_name : PName
  share : ℚ
  deriving DecidableEq, Repr, Inhabited

/-- Bills document (src/app/models/bills.py).  `paid_by` is embedded as the
`Participants` object that `create_bill` resolves and stores; timestamps are
opaque naturals. -/
structure Bills where
  id : String
  owner_id : String
  event_id : String
  title : String
  note : Option String := none
  bill_split_type : BillSplitType
  items : List BillItem
  subtotal : ℚ
  tax : ℚ
  total_amount : ℚ
  paid_by : Participants
  per_user_shares : List UserShare
  created_at : ℕ
  updated_at : ℕ
  deriving DecidableEq, Repr, Inhabited

/-- Events document (src/app/models/events.py), restricted to the fields the
bill router reads. -/
structure Events where
  name : String
  participants : List Participants := []
  deriving DecidableEq, Repr, Inhabited

/-- Failure outcomes of the bill operations.  The HTTP 400/404 details of
bills_router.py are carried structurally: the item-validation errors carry
the offending item's display name (`item.get("name", "unknown")`), and the
manual-shares mismatch carries both reported sums.  `keyError`,
`valueError` and `attributeError` model the plain Python exceptions the
corresponding lines can raise. -/
inductive BillError where
  | invalidIdentifier
  | eventNotFound
  | billNotFound
  | notOwner
  | missingSplitBetween (itemName : String)
  | missingSplitType (itemName : String)
  | noParticipants
  | manualSharesRequired
  | manualSharesMismatch (sharesSum : ℚ) (totalAmount : ℚ)
  | keyError (key : String)
  | valueError (value : String)
  | attributeError
  deriving DecidableEq, Repr, Inhabited

/-- BalanceItemOut (src/app/dto/bills.py); the router passes the debtor and
creditor `Participants` objects through. -/
structure BalanceItemOut where
  debtor : Participants
  creditor : Participants
  amount_owed : ℚ
  deriving DecidableEq, Repr, Inhabited

/-- BillBalancesOut (src/app/dto/bills.py). -/
structure BillBalancesOut where
  bill_id : String
  total_amount : ℚ
  balances : List BalanceItemOut
  deriving DecidableEq, Repr, Inhabited

/-- Function `_round_share` of bills_router.py: round to 2 decimal places
(`round(amount, 2)`; the spec fixes two decimals and allows half-even or
half-up tie-breaking, and this model uses half-up, written through
`Rat.floor` so that it evaluates). -/
def round_share (amount : ℚ) : ℚ :=
  (Rat.floor (amount * 100 + 1 / 2) : ℚ) / 100

/-- Value of `item.get("quantity", 1) * item.get("unit_price", 0)` for one
raw item dict. -/
def lineTotal (item : RawItem) : ℚ :=
  item.quantity.getD 1 * item.unit_price.getD 0

/-- Function `_calculate_subtotal` of bills_router.py. -/
def calculate_subtotal (items : List RawItem) : ℚ :=
  (items.map lineTotal).sum

/-- Function `_calculate_total_amount` of bills_router.py. -/
def calculate_total_amount (subtotal : ℚ) (tax : ℚ) : ℚ :=
  subtotal * (1 + tax / 100)

/-- Function `_participant_key` of bills_router.py (also inlined in the
`_process_by_item` loop): user id as string when present, else the name. -/
def participant_key (participant : Participants) : String :=
  match participant.user_id with
  | some uid => uid
  | none => participant.name

/-- Function `_is_same_participant` of bills_router.py. -/
def is_same_participant (a : Participants) (b : Participants) : Bool :=
  if a.user_id.isSome && b.user_id.isSome then a.user_id == b.user_id
  else if a.user_id.isNone && b.user_id.isNone then a.name == b.name
  else false

/-- Loop body of `_calculate_balances_for_bill`: walk the stored shares in
order, skip the payer, emit one record per other share.  A share whose
`user_name` field holds a bare string (as the manual policy stores) makes
`_is_same_participant` access `user_id` on a `str`, an `AttributeError`. -/
def balancesLoop (creditor : Participants) : List UserShare → Except BillError (List BalanceItemOut)
  | [] => Except.ok []
  | share :: rest =>
    match share.user_name with
    | PName.raw _ => Except.error BillError.attributeError
    | PName.part debtor =>
      if is_same_participant debtor creditor then balancesLoop creditor rest
      else
        match balancesLoop creditor rest with
        | Except.error e => Except.error e
        | Except.ok bs =>
          Except.ok ({ debtor := debtor, creditor := creditor,
                       amount_owed := round_share share.share } :: bs)

/-- Function `_calculate_balances_for_bill` of bills_router.py. -/
def calculate_balances_for_bill (bill : Bills) : Except BillError BillBalancesOut :=
  match balancesLoop bill.paid_by bill.per_user_shares with
  | Except.error e => Except.error e
  | Except.ok bs =>
    Except.ok { bill_id := bill.id, total_amount := bill.total_amount, balances := bs }

/-- Accumulator of `_process_by_item`: the insertion-ordered
`defaultdict(float)` keyed by participant key, as an association list. -/
def accAdd (acc : List (String × ℚ)) (k : String) (v : ℚ) : List (String × ℚ) :=
  if acc.any (fun kv => kv.1 == k) then
    acc.map (fun kv => if kv.1 == k then (kv.1, kv.2 + v) else kv)
  else acc ++ [(k, v)]

/-- The insertion-ordered `participants_map` dict of `_process_by_item`:
later writes overwrite the stored participant but keep the position. -/
def mapPut (m : List (String × Participants)) (k : String) (p : Participants) :
    List (String × Participants) :=
  if m.any (fun kv => kv.1 == k) then
    m.map (fun kv => if kv.1 == k then (kv.1, p) else kv)
  else m ++ [(k, p)]

/-- Lookup in the share accumulator; a missing key reads as 0 (defaultdict). -/
def lookupAmt (acc : List (String × ℚ)) (k : String) : ℚ :=
  match acc.find? (fun kv => kv.1 == k) with
  | some kv => kv.2
  | none => 0

/-- Lookup in the participants map (`participants_map[key]`). -/
def lookupP (m : List (String × Participants)) (k : String) : Option Participants :=
  (m.find? (fun kv => kv.1 == k)).map (fun kv => kv.2)

/-- Final comprehension of `_process_by_item`: one `UserShare` per
accumulator entry, in insertion order, each accumulated amount multiplied by
the tax multiplier and rounded once; `participants_map[key]` would raise
`KeyError` on a missing key (shown unreachable below). -/
def buildShares (pmap : List (String × Participants)) (taxMul : ℚ) :
    List (String × ℚ) → Except BillError (List UserShare)
  | [] => Except.ok []
  | kv :: rest =>
    match lookupP pmap kv.1 with
    | none => Except.error (BillError.keyError kv.1)
    | some p =>
      match buildShares pmap taxMul rest with
      | Except.error e => Except.error e
      | Except.ok us => Except.ok ({ user_name := PName.part p, share := round_share (kv.2 * taxMul) } :: us)

/-- Loop of `_process_by_item` over the raw items, at item index `i` (the
index only feeds the generated item id).  Per item: reject a missing or
empty `split_between`, reject a missing `split_type`, normalise the
participants, accrue `total_price / len(participants)` per participant into
the accumulator, record the participant under its key, then build the
`BillItem` (where the `ItemSplitType` conversion and the `item["name"]`
access can raise). -/
def processByItemLoop (g : ℕ → String) :
    ℕ → List (String × ℚ) → List (String × Participants) → List RawItem →
    Except BillError (List BillItem × List (String × ℚ) × List (String × Participants))
  | _, acc, pmap, [] => Except.ok ([], acc, pmap)
  | i, acc, pmap, item :: rest =>
    match item.split_between with
    | none => Except.error (BillError.missingSplitBetween (item.name.getD "unknown"))
    | some [] => Except.error (BillError.missingSplitBetween (item.name.getD "unknown"))
    | some (r0 :: rs) =>
      match item.split_type with
      | none => Except.error (BillError.missingSplitType (item.name.getD "unknown"))
      | some st =>
        let quantity := item.quantity.getD 1
        let unit_price := item.unit_price.getD 0
        let total_price := quantity * unit_price
        let ps := (r0 :: rs).map RawParticipant.normalize
        let share_per_person := total_price / (ps.length : ℚ)
        let acc2 := ps.foldl (fun a p => accAdd a (participant_key p) share_per_person) acc
        let pmap2 := ps.foldl (fun m p => mapPut m (participant_key p) p) pmap
        match ItemSplitType.ofString st with
        | none => Except.error (BillError.valueError st)
        | some ist =>
          match item.name with
          | none => Except.error (BillError.keyError "name")
          | some nm =>
            match processByItemLoop g (i + 1) acc2 pmap2 rest with
            | Except.error e => Except.error e
            | Except.ok (bis, accF, pmapF) =>
              Except.ok ({ id := g i, name := nm, quantity := quantity,
                           unit_price := unit_price,
                           total_price := round_share total_price,
                           split_type := some ist, split_between := some ps } :: bis,
                         accF, pmapF)

/-- Function `_process_by_item` of bills_router.py.  `g` models the
uuid-based `_generate_item_id`, giving the id of the n-th generated item. -/
def process_by_item (g : ℕ → String) (payload : BillCreateIn) :
    Except BillError (ℚ × ℚ × List BillItem × List UserShare) :=
  let subtotal := calculate_subtotal payload.items
  let total_amount := calculate_total_amount subtotal payload.tax
  let tax_multiplier := 1 + payload.tax / 100
  match processByItemLoop g 0 [] [] payload.items with
  | Except.error e => Except.error e
  | Except.ok (bill_items, acc, pmap) =>
    match buildShares pmap tax_multiplier acc with
    | Except.error e => Except.error e
    | Except.ok per_user_shares =>
      Except.ok (subtotal, round_share total_amount, bill_items, per_user_shares)

/-- Shared `bill_items` comprehension of `_process_equally` and
`_process_manual`: items recorded without split metadata; the
`item["name"]` access raises `KeyError` when the key is missing. -/
def simpleItems (g : ℕ → String) : ℕ → List RawItem → Except BillError (List BillItem)
  | _, [] => Except.ok []
  | i, item :: rest =>
    match item.name with
    | none => Except.error (BillError.keyError "name")
    | some nm =>
      match simpleItems g (i + 1) rest with
      | Except.error e => Except.error e
      | Except.ok bis =>
        Except.ok ({ id := g i, name := nm, quantity := item.quantity.getD 1,
                     unit_price := item.unit_price.getD 0,
                     total_price := round_share (lineTotal item),
                     split_type := none, split_between := none } :: bis)

/-- Function `_process_equally` of bills_router.py.  The event roster is a
typed `list[Participants]` (src/app/models/events.py), so the
`isinstance(participant, Participants)` branch of the comprehension always
takes the participant unchanged. -/
def process_equally (g : ℕ → String) (payload : BillCreateIn) (event : Events) :
    Except BillError (ℚ × ℚ × List BillItem × List UserShare) :=
  if event.participants.isEmpty then Except.error BillError.noParticipants
  else
    let subtotal := calculate_subtotal payload.items
    let total_amount := calculate_total_amount subtotal payload.tax
    let share_per_person := total_amount / (event.participants.length : ℚ)
    let per_user_shares := event.participants.map
      (fun p => { user_name := PName.part p, share := round_share share_per_person : UserShare })
    match simpleItems g 0 payload.items with
    | Except.error e => Except.error e
    | Except.ok bill_items =>
      Except.ok (subtotal, round_share total_amount, bill_items, per_user_shares)

/-- Function `_process_manual` of bills_router.py.  Python's
`if not payload.manual_shares` rejects both a missing and an empty list;
the accepted shares store the raw `user_name` string of each
`ManualShareIn` in the `user_name` field. -/
def process_manual (g : ℕ → String) (payload : BillCreateIn) :
    Except BillError (ℚ × ℚ × List BillItem × List UserShare) :=
  if (payload.manual_shares.getD []).isEmpty then Except.error BillError.manualSharesRequired
  else
    let shares := payload.manual_shares.getD []
    let subtotal := calculate_subtotal payload.items
    let total_amount := calculate_total_amount subtotal payload.tax
    let manual_shares_sum := (shares.map ManualShareIn.amount).sum
    if 1 / 100 < |manual_shares_sum - total_amount| then
      Except.error (BillError.manualSharesMismatch manual_shares_sum (round_share total_amount))
    else
      let per_user_shares := shares.map
        (fun s => { user_name := PName.raw s.user_name, share := round_share s.amount : UserShare })
      match simpleItems g 0 payload.items with
      | Except.error e => Except.error e
      | Except.ok bill_items =>
        Except.ok (subtotal, round_share total_amount, bill_items, per_user_shares)

/-- Check performed by `ObjectId.is_valid` for the ids `_parse_object_id`
accepts: a 24-character hex string. -/
def objectIdValid (s : String) : Bool :=
  s.length == 24 && s.toList.all (fun c => c.isDigit || (Char.ofNat 97 ≤ c && c ≤ Char.ofNat 102) || (Char.ofNat 65 ≤ c && c ≤ Char.ofNat 70))

/-- Resolution of the `paid_by` string in `create_bill`: first event
participant matching by user id string or by name, else a synthesized guest
participant with that name. -/
def resolve_paid_by (event : Events) (paid_by : String) : Participants :=
  match event.participants.find? (fun p => p.user_id == some paid_by || p.name == paid_by) with
  | some p => p
  | none => { name := paid_by, user_id := none, is_guest := true }

/-- Endpoint `create_bill` of bills_router.py, with the collaborators made
explicit: `eventLookup` is the result of `Events.get`, `current_user` the
authenticated caller id, `assignedId` the document id the store assigns at
insert, `now` the creation clock reading, and `g` the item-id generator. -/
def create_bill (g : ℕ → String) (payload : BillCreateIn) (eventLookup : Option Events)
    (current_user : String) (assignedId : String) (now : ℕ) : Except BillError Bills :=
  match eventLookup with
  | none => Except.error BillError.eventNotFound
  | some event =>
    if !objectIdValid current_user then Except.error BillError.invalidIdentifier
    else
      let paid_by_participant := resolve_paid_by event payload.paid_by
      let processed :=
        match payload.bill_split_type with
        | BillSplitType.by_item => process_by_item g payload
        | BillSplitType.equally => process_equally g payload event
        | BillSplitType.manual => process_manual g payload
      match processed with
      | Except.error e => Except.error e
      | Except.ok (subtotal, total_amount, bill_items, per_user_shares) =>
        if !objectIdValid payload.event_id then Except.error BillError.invalidIdentifier
        else
          Except.ok { id := assignedId, owner_id := current_user,
                      event_id := payload.event_id, title := payload.title,
                      note := payload.note,
                      bill_split_type := payload.bill_split_type,
                      items := bill_items, subtotal := subtotal,
                      tax := payload.tax, total_amount := total_amount,
                      paid_by := paid_by_participant,
                      per_user_shares := per_user_shares,
                      created_at := now, updated_at := now }

/-- Endpoint `update_bill` of bills_router.py on a fetched bill: only the
owner may update; when at least one of title and note was supplied the
supplied ones are written together with a fresh `updated_at`. -/
def update_bill (bill : Bills) (payload : BillUpdateIn) (current_user : String) (now : ℕ) :
    Except BillError Bills :=
  if bill.owner_id != current_user then Except.error BillError.notOwner
  else if payload.title.isSome || payload.note.isSome then
    Except.ok { bill with title := payload.title.getD bill.title,
                          note := match payload.note with
                                  | some v => some v
                                  | none => bill.note,
                          updated_at := now }
  else Except.ok bill

/-! Specification-side definitions, stated from the spec's wording and
compared with the embedded code above. -/

/-- Normalised participants of one raw item's `split_between` list. -/
def itemParticipants (i : RawItem) : List Participants :=
  (i.split_between.getD []).map RawParticipant.normalize

/-- Contribution of one item to the identity key `k` in the by-item policy,
per the spec: `total_price / count(split_between)` accrued once per
occurrence of the key among the item's participants. -/
def itemContribution (i : RawItem) (k : String) : ℚ :=
  (((itemParticipants i).filter (fun p => participant_key p == k)).length : ℚ) *
    (lineTotal i / ((itemParticipants i).length : ℚ))

/-- Accrued pre-tax total of identity key `k` over all items (spec wording
of the by-item accumulator). -/
def specContribution (items : List RawItem) (k : String) : ℚ :=
  (items.map (fun i => itemContribution i k)).sum

/-- All identity keys occurring in the items' `split_between` lists, in
processing order, with repetitions. -/
def byItemKeys (items : List RawItem) : List String :=
  (items.map (fun i => (itemParticipants i).map participant_key)).flatten

/-- Append a key unless already present (first-occurrence order). -/
def insertKey (ks : List String) (k : String) : List String :=
  if k ∈ ks then ks else ks ++ [k]

/-- Distinct keys of `l` in first-occurrence order, appended after `ks`. -/
def firstKeysFrom (ks : List String) (l : List String) : List String :=
  l.foldl insertKey ks

/-- Distinct keys of `l` in first-occurrence order. -/
def firstKeys (l : List String) : List String :=
  firstKeysFrom [] l

/-- Identity key of a stored share: `identityKey` of its participant, or
the stored raw string. -/
def shareKey (u : UserShare) : String :=
  match u.user_name with
  | PName.part p => participant_key p
  | PName.raw s => s

/-- Raw item with the defaulted keys made explicit: a missing `quantity`
replaced by 1, a missing `unit_price` by 0. -/
def fillItemDefaults (i : RawItem) : RawItem :=
  { i with quantity := some (i.quantity.getD 1), unit_price := some (i.unit_price.getD 0) }

/-- Payload with every item's missing `quantity`/`unit_price` defaulted. -/
def fillPayload (p : BillCreateIn) : BillCreateIn :=
  { p with items := p.items.map fillItemDefaults }

/-- Raw item accepted by the by-item policy: a name, a present non-empty
`split_between`, and a present valid `split_type`. -/
def itemWellFormed (i : RawItem) : Bool :=
  i.name.isSome && i.split_between.isSome && !(i.split_between.getD []).isEmpty &&
    (i.split_type.bind ItemSplitType.ofString).isSome

/-- Raw item the by-item policy must reject: `split_between` missing or
empty, or `split_type` missing. -/
def itemDefective (i : RawItem) : Bool :=
  i.split_between.isNone || (i.split_between.getD []).isEmpty || i.split_type.isNone

/-! Concrete fixtures used by the witnesses and counterexamples. -/

/-- Deterministic stand-in for the uuid item-id generator. -/
def gid : ℕ → String := fun n => "item_" ++ toString n

/-- Registered participant Alice. -/
def alice : Participants :=
  { name := "Alice", user_id := some "507f1f77bcf86cd799439011", is_guest := false }

/-- Guest participant Bob. -/
def bob : Participants := { name := "Bob" }

/-- Guest participant Carol. -/
def carol : Participants := { name := "Carol" }

/-- Guest who shares the registered Alice's display name. -/
def guestAlice : Participants := { name := "Alice" }

/-- Authenticated caller id (a valid 24-hex object id). -/
def cu0 : String := "507f1f77bcf86cd799439020"

/-- Event object id of the fixtures. -/
def eid0 : String := "507f1f77bcf86cd799439030"

/-- Bill object id assigned by the store in the fixtures. -/
def bid0 : String := "507f1f77bcf86cd799439040"

/-- Event with three participants. -/
def ev1 : Events := { name := "Trip", participants := [alice, bob, carol] }

/-- Event with an empty roster. -/
def ev0 : Events := { name := "Empty", participants := [] }

/-- By-item creation payload fixture. -/
def cpItem : BillCreateIn :=
  { event_id := eid0, title := "Dinner", bill_split_type := BillSplitType.by_item,
    items := [
      { name := some "Soup", quantity := some 1, unit_price := some 300000,
        split_type := some "everyone",
        split_between := some [RawParticipant.obj alice, RawParticipant.obj bob] },
      { name := some "Wings", quantity := some 2, unit_price := some 120000,
        split_type := some "custom",
        split_between := some [RawParticipant.obj bob] } ],
    tax := 10, paid_by := "Alice" }

/-- Bill created from `cpItem`. -/
def billItem0 : Bills := (create_bill gid cpItem (some ev1) cu0 bid0 0).toOption.getD default

/-- Equal-split creation payload fixture. -/
def cpEq : BillCreateIn :=
  { event_id := eid0, title := "Pizza", bill_split_type := BillSplitType.equally,
    items := [
      { name := some "Pizza", quantity := some 2, unit_price := some 15 },
      { name := some "Special", quantity := some 3, unit_price := some 30 } ],
    tax := 8, paid_by := "Bob" }

/-- Bill created from `cpEq`. -/
def billEq0 : Bills := (create_bill gid cpEq (some ev1) cu0 bid0 0).toOption.getD default

/-- Manual creation payload fixture (the repository's own OpenAPI example). -/
def cpMan : BillCreateIn :=
  { event_id := eid0, title := "Coffee", bill_split_type := BillSplitType.manual,
    items := [ { name := some "Latte", quantity := some 3, unit_price := some 5 } ],
    tax := 0, paid_by := "Alice",
    manual_shares := some [ { user_name := "Alice", amount := 10 },
                            { user_name := "Bob", amount := 5 } ] }

/-- Manual payload with an explicitly empty `manual_shares` list over a
zero-priced bill, so the supplied sum matches the total exactly. -/
def cpManEmpty : BillCreateIn :=
  { event_id := eid0, title := "Water", bill_split_type := BillSplitType.manual,
    items := [ { name := some "Tap", quantity := some 1, unit_price := some 0 } ],
    tax := 0, paid_by := "Alice", manual_shares := some [] }

/-- Equal-split payload whose exact subtotal (0.001) is not a 2-decimal
value. -/
def cpTiny : BillCreateIn :=
  { event_id := eid0, title := "Tea", bill_split_type := BillSplitType.equally,
    items := [ { name := some "Tea", quantity := some 1, unit_price := some (1 / 1000) } ],
    tax := 0, paid_by := "Alice" }

/-- Bill created from `cpTiny`. -/
def billTiny : Bills := (create_bill gid cpTiny (some ev1) cu0 bid0 0).toOption.getD default

/-- Well-formed by-item raw item fixture. -/
def itemSoupOk : RawItem :=
  { name := some "Soup", quantity := some 1, unit_price := some 10,
    split_type := some "everyone", split_between := some [RawParticipant.obj alice] }

/-- Raw item fixture missing both `split_between` and `split_type`. -/
def itemMystery : RawItem :=
  { name := some "Mystery", quantity := some 1, unit_price := some 5 }

/-- By-item payload whose second item has no split metadata. -/
def cpBad : BillCreateIn :=
  { event_id := eid0, title := "Bad", bill_split_type := BillSplitType.by_item,
    items := [itemSoupOk, itemMystery], tax := 0, paid_by := "Alice" }

/-- Update payload touching only the title. -/
def upd9 : BillUpdateIn := { title := some "Renamed" }

/-- Result of updating `billItem0` with `upd9`. -/
def bill9b : Bills := (update_bill billItem0 upd9 cu0 7).toOption.getD default

/-- Stored bill fixture with participant-typed, 2-decimal shares, used to
witness the Balance Calculator claims. -/
def bill3 : Bills :=
  { id := bid0, owner_id := cu0, event_id := eid0, title := "Dinner",
    bill_split_type := BillSplitType.by_item, items := [], subtotal := 540000,
    tax := 10, total_amount := 594000, paid_by := alice,
    per_user_shares := [⟨PName.part alice, 297000⟩, ⟨PName.part bob, 297000⟩],
    created_at := 0, updated_at := 0 }

/-- Spec-side description of the Balance Calculator output: walk
`per_user_shares` in order, emit no record for a share whose participant has
the payer's identity, and exactly one record `(debtor, creditor = paid_by,
amount_owed = the stored share)` for every other share. -/
def specBalances (bill : Bills) : List BalanceItemOut :=
  bill.per_user_shares.filterMap (fun s =>
    match s.user_name with
    | PName.part p =>
      if is_same_participant p bill.paid_by then none
      else some ⟨p, bill.paid_by, s.share⟩
    | PName.raw _ => none)

/-! Rounding lemmas. -/

theorem intFloor_eq_ratFloor (q : ℚ) : ⌊q⌋ = Rat.floor q := by
  rw [Rat.floor_def, Rat.floor_def']

theorem round_share_eq_round (q : ℚ) : round_share q = ((round (q * 100) : ℤ) : ℚ) / 100 := by
  rw [round_share, round_eq, intFloor_eq_ratFloor]

theorem round_share_int_div (n : ℤ) : round_share ((n : ℚ) / 100) = (n : ℚ) / 100 := by
  rw [round_share_eq_round, div_mul_cancel₀ (b := (100 : ℚ)) _ (by norm_num), round_intCast]

theorem round_share_idem (q : ℚ) : round_share (round_share q) = round_share q := by
  rw [round_share_eq_round q]
  exact round_share_int_div _

theorem abs_round_share_sub (q : ℚ) : |round_share q - q| ≤ 1 / 100 := by
  rw [round_share_eq_round]
  have h : |q * 100 - (round (q * 100) : ℚ)| ≤ 1 / 2 := abs_sub_round (q * 100)
  have h2 : |((round (q * 100) : ℤ) : ℚ) - q * 100| ≤ 1 / 2 := by rwa [abs_sub_comm] at h
  have h3 : ((round (q * 100) : ℤ) : ℚ) / 100 - q =
      (((round (q * 100) : ℤ) : ℚ) - q * 100) / 100 := by ring
  rw [h3, abs_div, abs_of_pos (by norm_num : (0 : ℚ) < 100)]
  linarith

/-! Frame lemma for `update_bill`, shared by several claims. -/

theorem update_bill_frame (bill : Bills) (payload : BillUpdateIn) (cu : String) (now : ℕ)
    (b2 : Bills) (h : update_bill bill payload cu now = Except.ok b2) :
    cu = bill.owner_id ∧ b2.id = bill.id ∧ b2.owner_id = bill.owner_id ∧
    b2.event_id = bill.event_id ∧ b2.bill_split_type = bill.bill_split_type ∧
    b2.items = bill.items ∧ b2.subtotal = bill.subtotal ∧ b2.tax = bill.tax ∧
    b2.total_amount = bill.total_amount ∧ b2.paid_by = bill.paid_by ∧
    b2.per_user_shares = bill.per_user_shares ∧ b2.created_at = bill.created_at := by
  unfold update_bill at h
  split at h
  · exact absurd h (by simp)
  · rename_i h1
    have hcu : cu = bill.owner_id := by
      simp only [bne_iff_ne, ne_eq, Decidable.not_not] at h1
      exact h1.symm
    split at h
    · injection h with h
      subst h
      exact ⟨hcu, rfl, rfl, rfl, rfl, rfl, rfl, rfl, rfl, rfl, rfl, rfl⟩
    · injection h with h
      subst h
      exact ⟨hcu, rfl, rfl, rfl, rfl, rfl, rfl, rfl, rfl, rfl, rfl, rfl⟩

/-- C9: a successful `update_bill` (which requires the caller to be the
owner) leaves every field other than `title`, `note` and `updated_at`
unchanged: the financial fields (`items`, `subtotal`, `tax`,
`total_amount`, `paid_by`, `per_user_shares`, `bill_split_type`) and
`owner_id`, `event_id`, `created_at` are identical before and after. -/
theorem C9_update_frame (bill : Bills) (payload : BillUpdateIn) (cu : String) (now : ℕ)
    (b2 : Bills) (h : update_bill bill payload cu now = Except.ok b2) :
    b2.owner_id = bill.owner_id ∧ b2.event_id = bill.event_id ∧
    b2.bill_split_type = bill.bill_split_type ∧ b2.items = bill.items ∧
    b2.subtotal = bill.subtotal ∧ b2.tax = bill.tax ∧
    b2.total_amount = bill.total_amount ∧ b2.paid_by = bill.paid_by ∧
    b2.per_user_shares = bill.per_user_shares ∧ b2.created_at = bill.created_at ∧
    b2.id = bill.id := by
  obtain ⟨-, hid, ho, he, hs, hi, hsub, ht, hta, hp, hpu, hc⟩ :=
    update_bill_frame bill payload cu now b2 h
  exact ⟨ho, he, hs, hi, hsub, ht, hta, hp, hpu, hc, hid⟩

/-- Witness for C9 on the concrete by-item bill fixture. -/
theorem C9_witness :
    bill9b.owner_id = billItem0.owner_id ∧ bill9b.event_id = billItem0.event_id ∧
    bill9b.bill_split_type = billItem0.bill_split_type ∧ bill9b.items = billItem0.items ∧
    bill9b.subtotal = billItem0.subtotal ∧ bill9b.tax = billItem0.tax ∧
    bill9b.total_amount = billItem0.total_amount ∧ bill9b.paid_by = billItem0.paid_by ∧
    bill9b.per_user_shares = billItem0.per_user_shares ∧
    bill9b.created_at = billItem0.created_at ∧ bill9b.id = billItem0.id :=
  C9_update_frame billItem0 upd9 cu0 7 bill9b (by with_unfolding_all rfl)

/-- C6: `_is_same_participant a b` is true exactly when both participants
use the same kind of identity key (both registered or both guests) and the
keys (`_participant_key`) coincide; in particular, when exactly one of the
two has a `user_id` the result is false, whatever the strings are. -/
theorem C6_same_identity :
    (∀ a b : Participants, is_same_participant a b = true ↔
      (((a.user_id.isSome ∧ b.user_id.isSome) ∨ (a.user_id = none ∧ b.user_id = none)) ∧
        participant_key a = participant_key b)) ∧
    (∀ a b : Participants, a.user_id.isSome ≠ b.user_id.isSome →
      is_same_participant a b = false) := by
  constructor
  · intro a b
    rcases ha : a.user_id with _ | ia <;> rcases hb : b.user_id with _ | ib <;>
      simp [is_same_participant, participant_key, ha, hb]
  · intro a b hab
    rcases ha : a.user_id with _ | ia <;> rcases hb : b.user_id with _ | ib
    · simp [ha, hb] at hab
    · simp [is_same_participant, ha, hb]
    · simp [is_same_participant, ha, hb]
    · simp [ha, hb] at hab

/-- Witness for C6: the registered Alice and an unregistered guest with the
identical name are distinct identities. -/
theorem C6_witness : is_same_participant alice guestAlice = false :=
  C6_same_identity.2 alice guestAlice (by decide)

/-! Lemmas for C10: missing `quantity`/`unit_price` keys behave as 1 and 0. -/

theorem lineTotal_fill (i : RawItem) : lineTotal (fillItemDefaults i) = lineTotal i := by
  simp [lineTotal, fillItemDefaults]

theorem calculate_subtotal_fill (items : List RawItem) :
    calculate_subtotal (items.map fillItemDefaults) = calculate_subtotal items := by
  unfold calculate_subtotal
  rw [List.map_map]
  exact congrArg List.sum (List.map_congr_left (fun i _ => lineTotal_fill i))

theorem simpleItems_fill (g : ℕ → String) (n : ℕ) (items : List RawItem) :
    simpleItems g n (items.map fillItemDefaults) = simpleItems g n items := by
  induction items generalizing n with
  | nil => rfl
  | cons i rest ih =>
    cases hn : i.name with
    | none => simp [simpleItems, fillItemDefaults, hn]
    | some nm => simp [simpleItems, fillItemDefaults, lineTotal, hn, ih]

theorem processByItemLoop_fill (g : ℕ → String) (n : ℕ) (acc : List (String × ℚ))
    (pmap : List (String × Participants)) (items : List RawItem) :
    processByItemLoop g n acc pmap (items.map fillItemDefaults) =
      processByItemLoop g n acc pmap items := by
  induction items generalizing n acc pmap with
  | nil => rfl
  | cons i rest ih =>
    cases hsb : i.split_between with
    | none => simp [processByItemLoop, fillItemDefaults, hsb]
    | some l =>
      cases l with
      | nil => simp [processByItemLoop, fillItemDefaults, hsb]
      | cons r rs =>
        cases hst : i.split_type with
        | none => simp [processByItemLoop, fillItemDefaults, hsb, hst]
        | some st =>
          simp only [List.map_cons, processByItemLoop, fillItemDefaults, hsb, hst,
            Option.getD_some, ih]

/-- C10 (implicit): a raw item dict with a missing `quantity` key behaves
exactly as one with `quantity = 1`, and a missing `unit_price` key exactly
as `unit_price = 0` — in the subtotal and in all three split processors
(hence in stored `total_price` and in every per-person share) — and
filling in the defaults changes no validation outcome. -/
theorem C10_item_defaults (g : ℕ → String) (payload : BillCreateIn) (event : Events) :
    calculate_subtotal (fillPayload payload).items = calculate_subtotal payload.items ∧
    process_by_item g (fillPayload payload) = process_by_item g payload ∧
    process_equally g (fillPayload payload) event = process_equally g payload event ∧
    process_manual g (fillPayload payload) = process_manual g payload := by
  refine ⟨calculate_subtotal_fill payload.items, ?_, ?_, ?_⟩
  · simp [process_by_item, fillPayload, calculate_subtotal_fill, processByItemLoop_fill]
  · simp [process_equally, fillPayload, calculate_subtotal_fill, simpleItems_fill]
  · simp [process_manual, fillPayload, calculate_subtotal_fill, simpleItems_fill]

/-! Inversion lemmas: what a successful split computation returns. -/

theorem process_by_item_ok_totals (g : ℕ → String) (p : BillCreateIn) (s t : ℚ)
    (its : List BillItem) (us : List UserShare)
    (h : process_by_item g p = Except.ok (s, t, its, us)) :
    s = calculate_subtotal p.items ∧ t = round_share (calculate_total_amount s p.tax) := by
  simp only [process_by_item] at h
  cases hl : processByItemLoop g 0 [] [] p.items with
  | error e => rw [hl] at h; simp at h
  | ok r =>
    obtain ⟨bis, acc, pmap⟩ := r
    rw [hl] at h
    simp only [] at h
    cases hb : buildShares pmap (1 + p.tax / 100) acc with
    | error e => rw [hb] at h; simp at h
    | ok shares =>
      rw [hb] at h
      simp only [Except.ok.injEq, Prod.mk.injEq] at h
      obtain ⟨h1, h2, -, -⟩ := h
      exact ⟨h1.symm, by rw [← h1]; exact h2.symm⟩

theorem process_equally_ok_totals (g : ℕ → String) (p : BillCreateIn) (event : Events)
    (s t : ℚ) (its : List BillItem) (us : List UserShare)
    (h : process_equally g p event = Except.ok (s, t, its, us)) :
    s = calculate_subtotal p.items ∧ t = round_share (calculate_total_amount s p.tax) := by
  simp only [process_equally] at h
  split at h
  · simp at h
  · cases hi : simpleItems g 0 p.items with
    | error e => rw [hi] at h; simp at h
    | ok bis =>
      rw [hi] at h
      simp only [Except.ok.injEq, Prod.mk.injEq] at h
      obtain ⟨h1, h2, -, -⟩ := h
      exact ⟨h1.symm, by rw [← h1]; exact h2.symm⟩

theorem process_manual_ok_totals (g : ℕ → String) (p : BillCreateIn)
    (s t : ℚ) (its : List BillItem) (us : List UserShare)
    (h : process_manual g p = Except.ok (s, t, its, us)) :
    s = calculate_subtotal p.items ∧ t = round_share (calculate_total_amount s p.tax) := by
  simp only [process_manual] at h
  split at h
  · simp at h
  · split at h
    · simp at h
    · cases hi : simpleItems g 0 p.items with
      | error e => rw [hi] at h; simp at h
      | ok bis =>
        rw [hi] at h
        simp only [Except.ok.injEq, Prod.mk.injEq] at h
        obtain ⟨h1, h2, -, -⟩ := h
        exact ⟨h1.symm, by rw [← h1]; exact h2.symm⟩

theorem create_bill_ok_fields (g : ℕ → String) (p : BillCreateIn) (look : Option Events)
    (cu bid : String) (now : ℕ) (bill : Bills)
    (h : create_bill g p look cu bid now = Except.ok bill) :
    ∃ event s t its us, look = some event ∧
      (match p.bill_split_type with
       | BillSplitType.by_item => process_by_item g p
       | BillSplitType.equally => process_equally g p event
       | BillSplitType.manual => process_manual g p) = Except.ok (s, t, its, us) ∧
      bill.subtotal = s ∧ bill.total_amount = t ∧ bill.items = its ∧
      bill.per_user_shares = us ∧ bill.tax = p.tax ∧ bill.title = p.title ∧
      bill.bill_split_type = p.bill_split_type ∧ bill.owner_id = cu ∧
      bill.paid_by = resolve_paid_by event p.paid_by := by
  cases look with
  | none => simp [create_bill] at h
  | some event =>
    refine ⟨event, ?_⟩
    simp only [create_bill] at h
    split at h
    · simp at h
    · cases hq : (match p.bill_split_type with
        | BillSplitType.by_item => process_by_item g p
        | BillSplitType.equally => process_equally g p event
        | BillSplitType.manual => process_manual g p) with
      | error e => rw [hq] at h; simp at h
      | ok r =>
        obtain ⟨s, t, its, us⟩ := r
        rw [hq] at h
        simp only [] at h
        split at h
        · simp at h
        · injection h with h
          subst h
          exact ⟨s, t, its, us, rfl, rfl, rfl, rfl, rfl, rfl, rfl, rfl, rfl, rfl, rfl⟩

/-- C2: every successfully created bill, for any split policy, stores
`total_amount = round_share(subtotal * (1 + tax/100))` with `subtotal` the
sum over the raw items of `quantity * unit_price` and `tax` the payload's
tax (any value of `tax`, in particular every `tax >= 0`), and every later
`update_bill` preserves `subtotal`, `tax` and `total_amount` (reads and the
value returned by delete are the stored record itself). -/
theorem C2_total_amount_invariant (g : ℕ → String) (p : BillCreateIn)
    (look : Option Events) (cu bid : String) (now : ℕ) (bill : Bills)
    (h : create_bill g p look cu bid now = Except.ok bill) :
    bill.total_amount = round_share (bill.subtotal * (1 + bill.tax / 100)) ∧
    bill.subtotal = (p.items.map lineTotal).sum ∧ bill.tax = p.tax ∧
    (∀ upd cu2 now2 bill2, update_bill bill upd cu2 now2 = Except.ok bill2 →
      bill2.subtotal = bill.subtotal ∧ bill2.tax = bill.tax ∧
      bill2.total_amount = bill.total_amount) := by
  obtain ⟨event, s, t, its, us, -, hproc, hsub, htot, -, -, htax, -, -, -, -⟩ :=
    create_bill_ok_fields g p look cu bid now bill h
  have hst : s = calculate_subtotal p.items ∧ t = round_share (calculate_total_amount s p.tax) := by
    cases hb : p.bill_split_type with
    | by_item => rw [hb] at hproc; exact process_by_item_ok_totals g p s t its us hproc
    | equally => rw [hb] at hproc; exact process_equally_ok_totals g p event s t its us hproc
    | manual => rw [hb] at hproc; exact process_manual_ok_totals g p s t its us hproc
  refine ⟨?_, ?_, htax, ?_⟩
  · rw [htot, hst.2, hsub, htax, hst.1]
    rfl
  · rw [hsub, hst.1]
    rfl
  · intro upd cu2 now2 bill2 h2
    obtain ⟨-, -, -, -, -, -, hs2, ht2, hta2, -, -, -⟩ :=
      update_bill_frame bill upd cu2 now2 bill2 h2
    exact ⟨hs2, ht2, hta2⟩

/-- Witness for C2 on the concrete equal-split fixture. -/
theorem C2_witness :
    billEq0.total_amount = round_share (billEq0.subtotal * (1 + billEq0.tax / 100)) ∧
    billEq0.subtotal = (cpEq.items.map lineTotal).sum :=
  ⟨(C2_total_amount_invariant gid cpEq (some ev1) cu0 bid0 0 billEq0
      (by with_unfolding_all rfl)).1,
   (C2_total_amount_invariant gid cpEq (some ev1) cu0 bid0 0 billEq0
      (by with_unfolding_all rfl)).2.1⟩

/-! Lemmas and theorem for C3: the Balance Calculator. -/

theorem balancesLoop_spec (creditor : Participants) (shares : List UserShare)
    (hp : ∀ s ∈ shares, (s.user_name).isPart = true) :
    balancesLoop creditor shares = Except.ok (shares.filterMap (fun s =>
      match s.user_name with
      | PName.part p =>
        if is_same_participant p creditor then none
        else some ⟨p, creditor, round_share s.share⟩
      | PName.raw _ => none)) := by
  induction shares with
  | nil => rfl
  | cons s rest ih =>
    have hs := hp s (by simp)
    have hrest : ∀ x ∈ rest, (x.user_name).isPart = true := fun x hx => hp x (by simp [hx])
    cases hu : s.user_name with
    | raw r => rw [hu] at hs; simp [PName.isPart] at hs
    | part pp =>
      by_cases hsame : is_same_participant pp creditor
      · simp [balancesLoop, hu, hsame, ih hrest]
      · simp [balancesLoop, hu, hsame, ih hrest]

/-- C3: for a bill whose stored shares carry `Participants` objects with
2-decimal share amounts (as every bill the router itself creates does), the
Balance Calculator emits no record for a share whose participant has the
payer's identity (`_is_same_participant`), and exactly one record per other
share, in the order of `per_user_shares`, with `debtor` the share's
participant, `creditor` the payer, and `amount_owed` the stored share. -/
theorem C3_balances (bill : Bills)
    (hp : ∀ s ∈ bill.per_user_shares, (s.user_name).isPart = true)
    (hr : ∀ s ∈ bill.per_user_shares, round_share s.share = s.share) :
    calculate_balances_for_bill bill =
      Except.ok ⟨bill.id, bill.total_amount, specBalances bill⟩ := by
  have he : (bill.per_user_shares.filterMap (fun s =>
      match s.user_name with
      | PName.part p =>
        if is_same_participant p bill.paid_by then none
        else some ⟨p, bill.paid_by, round_share s.share⟩
      | PName.raw _ => none)) = specBalances bill := by
    unfold specBalances
    apply List.filterMap_congr
    intro s hs
    cases hu : s.user_name with
    | raw r => rfl
    | part pp =>
      by_cases hsame : is_same_participant pp bill.paid_by
      · simp [hsame]
      · simp [hsame, hr s hs]
  unfold calculate_balances_for_bill
  rw [balancesLoop_spec bill.paid_by bill.per_user_shares hp, he]

/-- Witness for C3 on the concrete stored-bill fixture. -/
theorem C3_witness :
    calculate_balances_for_bill bill3 =
      Except.ok ⟨bill3.id, bill3.total_amount, specBalances bill3⟩ :=
  C3_balances bill3
    (by
      intro s hs
      simp only [bill3, List.mem_cons, List.not_mem_nil, or_false] at hs
      rcases hs with rfl | rfl <;> rfl)
    (by
      intro s hs
      simp only [bill3, List.mem_cons, List.not_mem_nil, or_false] at hs
      rcases hs with rfl | rfl <;> with_unfolding_all rfl)

/-! Lemmas and theorem for C4: the equal-split policy. -/

theorem abs_round_share_sub_half (q : ℚ) : |round_share q - q| ≤ 1 / 200 := by
  rw [round_share_eq_round]
  have h : |q * 100 - (round (q * 100) : ℚ)| ≤ 1 / 2 := abs_sub_round (q * 100)
  have h2 : |((round (q * 100) : ℤ) : ℚ) - q * 100| ≤ 1 / 2 := by rwa [abs_sub_comm] at h
  have h3 : ((round (q * 100) : ℤ) : ℚ) / 100 - q =
      (((round (q * 100) : ℤ) : ℚ) - q * 100) / 100 := by ring
  rw [h3, abs_div, abs_of_pos (by norm_num : (0 : ℚ) < 100)]
  linarith

theorem equal_share_close (q : ℚ) (n : ℕ) (hn : 1 ≤ n) :
    |round_share (q / n) - round_share q / n| ≤ 1 / 100 := by
  have h1 : |round_share (q / n) - q / n| ≤ 1 / 200 := abs_round_share_sub_half _
  have h2 : |round_share q - q| ≤ 1 / 200 := abs_round_share_sub_half q
  have hn1 : (1 : ℚ) ≤ n := by exact_mod_cast hn
  have h3 : |round_share q / (n : ℚ) - q / n| ≤ 1 / 200 := by
    have he : round_share q / (n : ℚ) - q / n = (round_share q - q) / n := by ring
    rw [he, abs_div, abs_of_pos (by linarith : (0 : ℚ) < n)]
    calc |round_share q - q| / (n : ℚ) ≤ |round_share q - q| :=
          div_le_self (abs_nonneg _) hn1
      _ ≤ 1 / 200 := h2
  calc |round_share (q / n) - round_share q / n|
      ≤ |round_share (q / n) - q / n| + |q / n - round_share q / n| := abs_sub_le _ _ _
    _ = |round_share (q / n) - q / n| + |round_share q / (n : ℚ) - q / n| := by
        rw [abs_sub_comm (q / n)]
    _ ≤ 1 / 100 := by linarith

theorem simpleItems_ok (g : ℕ → String) (n : ℕ) (items : List RawItem)
    (hnames : ∀ i ∈ items, i.name.isSome = true) :
    ∃ bis, simpleItems g n items = Except.ok bis ∧ bis.length = items.length ∧
      (∀ it ∈ bis, it.split_type = none ∧ it.split_between = none) ∧
      (∀ it ∈ bis, round_share it.total_price = it.total_price) := by
  induction items generalizing n with
  | nil => exact ⟨[], rfl, rfl, by simp, by simp⟩
  | cons i rest ih =>
    obtain ⟨nm, hnm⟩ := Option.isSome_iff_exists.mp (hnames i (by simp))
    obtain ⟨bis, hbis, hlen, hmeta, hround⟩ := ih (n + 1) (fun x hx => hnames x (by simp [hx]))
    refine ⟨{ id := g n, name := nm, quantity := i.quantity.getD 1, unit_price := i.unit_price.getD 0, total_price := round_share (lineTotal i), split_type := none, split_between := none } :: bis, ?_, ?_, ?_, ?_⟩
    · simp [simpleItems, hnm, hbis]
    · simp [hlen]
    · intro it hit
      simp only [List.mem_cons] at hit
      rcases hit with rfl | hit
      · exact ⟨rfl, rfl⟩
      · exact hmeta it hit
    · intro it hit
      simp only [List.mem_cons] at hit
      rcases hit with rfl | hit
      · exact round_share_idem _
      · exact hround it hit

/-- C4: for an equal-split creation against an Event, if the roster is
empty the processor and the whole creation fail with the roster validation
error and no bill is produced; if the roster has `n >= 1` participants the
computation succeeds, every Event participant receives the identical share
`round_share(total_amount / n)` (within 1 cent of the stored total divided
by `n`), and the recorded items carry no `split_type` and no
`split_between`. -/
theorem C4_equal_split (g : ℕ → String) (p : BillCreateIn) (event : Events)
    (cu bid : String) (now : ℕ)
    (hnames : ∀ i ∈ p.items, i.name.isSome = true)
    (hsplit : p.bill_split_type = BillSplitType.equally)
    (hcu : objectIdValid cu = true) :
    (event.participants = [] →
      process_equally g p event = Except.error BillError.noParticipants ∧
      create_bill g p (some event) cu bid now = Except.error BillError.noParticipants) ∧
    (event.participants ≠ [] →
      ∃ bis shares,
        process_equally g p event = Except.ok (calculate_subtotal p.items, round_share (calculate_total_amount (calculate_subtotal p.items) p.tax), bis, shares) ∧
        shares.length = event.participants.length ∧
        shares.map UserShare.user_name = event.participants.map PName.part ∧
        (∀ u ∈ shares, u.share = round_share (calculate_total_amount (calculate_subtotal p.items) p.tax / (event.participants.length : ℚ))) ∧
        (∀ u ∈ shares, |u.share - round_share (calculate_total_amount (calculate_subtotal p.items) p.tax) / (event.participants.length : ℚ)| ≤ 1 / 100) ∧
        (∀ it ∈ bis, it.split_type = none ∧ it.split_between = none)) := by
  constructor
  · intro hempty
    have h1 : process_equally g p event = Except.error BillError.noParticipants := by
      simp [process_equally, hempty]
    exact ⟨h1, by simp [create_bill, hcu, hsplit, h1]⟩
  · intro hne
    have hne' : event.participants.isEmpty = false := by
      simpa [List.isEmpty_iff] using hne
    have hnlen : 1 ≤ event.participants.length := by
      cases hl : event.participants with
      | nil => exact absurd hl hne
      | cons a l => simp
    obtain ⟨bis, hbis, -, hmeta, -⟩ := simpleItems_ok g 0 p.items hnames
    refine ⟨bis, event.participants.map (fun q => ⟨PName.part q, round_share (calculate_total_amount (calculate_subtotal p.items) p.tax / (event.participants.length : ℚ))⟩), ?_, by simp, by simp, ?_, ?_, hmeta⟩
    · simp [process_equally, hne', hbis]
    · intro u hu
      obtain ⟨q, -, rfl⟩ := List.mem_map.mp hu
      rfl
    · intro u hu
      obtain ⟨q, -, rfl⟩ := List.mem_map.mp hu
      exact equal_share_close (calculate_total_amount (calculate_subtotal p.items) p.tax)
        event.participants.length hnlen

/-- Witness for C4 at the empty-roster fixture: the validation failure and
the absence of any created bill. -/
theorem C4_witness :
    process_equally gid cpEq ev0 = Except.error BillError.noParticipants ∧
    create_bill gid cpEq (some ev0) cu0 bid0 0 = Except.error BillError.noParticipants :=
  (C4_equal_split gid cpEq ev0 cu0 bid0 0 (by decide) rfl (by decide)).1 rfl

/-! Theorems for C5: the manual policy. -/

/-- Counterexample to C5 as stated: with `manual_shares` present but empty
over a zero-total bill, the supplied sum (0) matches the total (0) exactly,
yet the code rejects the request with the `manual_shares is required`
validation error, because `if not payload.manual_shares` treats an empty
list like a missing one. -/
theorem C5_counterexample :
    process_manual gid cpManEmpty = Except.error BillError.manualSharesRequired ∧
    cpManEmpty.manual_shares ≠ none ∧
    |((cpManEmpty.manual_shares.getD []).map ManualShareIn.amount).sum -
        calculate_total_amount (calculate_subtotal cpManEmpty.items) cpManEmpty.tax| ≤ 1 / 100 := by
  refine ⟨by with_unfolding_all rfl, by simp [cpManEmpty], ?_⟩
  norm_num [cpManEmpty, calculate_subtotal, calculate_total_amount, lineTotal]

/-- C5 amended: the manual policy fails with the `required` validation
error exactly when `manual_shares` is absent **or empty**; when it is
non-empty it fails, reporting both sums, exactly when
`|sum(amounts) - total_amount| > 0.01`; otherwise (items carrying names)
it succeeds and the shares are exactly the caller-supplied
`(participant_name, amount)` pairs with each amount rounded to 2 decimals
and no redistribution. -/
theorem C5_manual_amended (g : ℕ → String) (p : BillCreateIn) :
    ((p.manual_shares.getD []).isEmpty = true →
      process_manual g p = Except.error BillError.manualSharesRequired) ∧
    ((p.manual_shares.getD []).isEmpty = false →
      (1 / 100 < |((p.manual_shares.getD []).map ManualShareIn.amount).sum - calculate_total_amount (calculate_subtotal p.items) p.tax| →
        process_manual g p = Except.error (BillError.manualSharesMismatch ((p.manual_shares.getD []).map ManualShareIn.amount).sum (round_share (calculate_total_amount (calculate_subtotal p.items) p.tax)))) ∧
      (|((p.manual_shares.getD []).map ManualShareIn.amount).sum - calculate_total_amount (calculate_subtotal p.items) p.tax| ≤ 1 / 100 →
        ∀ bis, simpleItems g 0 p.items = Except.ok bis →
          process_manual g p = Except.ok (calculate_subtotal p.items, round_share (calculate_total_amount (calculate_subtotal p.items) p.tax), bis, (p.manual_shares.getD []).map (fun s => ⟨PName.raw s.user_name, round_share s.amount⟩)))) := by
  constructor
  · intro he
    simp [process_manual, he]
  · intro he
    constructor
    · intro hgt
      simp only [process_manual, he, Bool.false_eq_true, reduceIte]
      rw [if_pos hgt]
    · intro hle bis hbis
      simp only [process_manual, he, Bool.false_eq_true, reduceIte]
      rw [if_neg (not_lt.mpr hle), hbis]

/-- Witness for C5 on the repository's own manual example (Latte 3 x 5,
tax 0, Alice 10 + Bob 5): accepted, shares passed through unchanged. -/
theorem C5_witness :
    process_manual gid cpMan = Except.ok (15, 15, [⟨"item_0", "Latte", 3, 5, 15, none, none⟩], [⟨PName.raw "Alice", 10⟩, ⟨PName.raw "Bob", 5⟩]) := by
  have h := ((C5_manual_amended gid cpMan).2 (by rfl)).2
    (by norm_num [cpMan, calculate_subtotal, calculate_total_amount, lineTotal])
    [⟨"item_0", "Latte", 3, 5, 15, none, none⟩] (by with_unfolding_all rfl)
  rw [h]
  with_unfolding_all rfl

/-! Lemmas and theorems for C8: which stored amounts are rounded. -/

theorem simpleItems_rounded (g : ℕ → String) (n : ℕ) (items : List RawItem)
    (bis : List BillItem) (h : simpleItems g n items = Except.ok bis) :
    ∀ it ∈ bis, round_share it.total_price = it.total_price := by
  induction items generalizing n bis with
  | nil =>
    simp only [simpleItems, Except.ok.injEq] at h
    subst h
    simp
  | cons i rest ih =>
    simp only [simpleItems] at h
    cases hn : i.name with
    | none => rw [hn] at h; simp at h
    | some nm =>
      rw [hn] at h
      simp only [] at h
      cases hr : simpleItems g (n + 1) rest with
      | error e => rw [hr] at h; simp at h
      | ok bis2 =>
        rw [hr] at h
        simp only [Except.ok.injEq] at h
        subst h
        intro it hit
        simp only [List.mem_cons] at hit
        rcases hit with rfl | hit
        · exact round_share_idem _
        · exact ih (n + 1) bis2 hr it hit

theorem buildShares_rounded (pmap : List (String × Participants)) (t : ℚ)
    (acc : List (String × ℚ)) (us : List UserShare)
    (h : buildShares pmap t acc = Except.ok us) :
    ∀ u ∈ us, round_share u.share = u.share := by
  induction acc generalizing us with
  | nil =>
    simp only [buildShares, Except.ok.injEq] at h
    subst h
    simp
  | cons kv rest ih =>
    simp only [buildShares] at h
    cases hl : lookupP pmap kv.1 with
    | none => rw [hl] at h; simp at h
    | some p =>
      rw [hl] at h
      simp only [] at h
      cases hb : buildShares pmap t rest with
      | error e => rw [hb] at h; simp at h
      | ok us2 =>
        rw [hb] at h
        simp only [Except.ok.injEq] at h
        subst h
        intro u hu
        simp only [List.mem_cons] at hu
        rcases hu with rfl | hu
        · exact round_share_idem _
        · exact ih us2 hb u hu

theorem processByItemLoop_rounded (g : ℕ → String) (n : ℕ) (acc : List (String × ℚ))
    (pmap : List (String × Participants)) (items : List RawItem) (bis : List BillItem)
    (accF : List (String × ℚ)) (pmapF : List (String × Participants))
    (h : processByItemLoop g n acc pmap items = Except.ok (bis, accF, pmapF)) :
    ∀ it ∈ bis, round_share it.total_price = it.total_price := by
  induction items generalizing n acc pmap bis accF pmapF with
  | nil =>
    simp only [processByItemLoop, Except.ok.injEq, Prod.mk.injEq] at h
    obtain ⟨h1, -, -⟩ := h
    subst h1
    simp
  | cons i rest ih =>
    simp only [processByItemLoop] at h
    split at h
    · simp at h
    · simp at h
    · split at h
      · simp at h
      · split at h
        · simp at h
        · split at h
          · simp at h
          · split at h
            · simp at h
            · rename_i hrec
              simp only [Except.ok.injEq, Prod.mk.injEq] at h
              obtain ⟨h1, h2, h3⟩ := h
              subst h1
              subst h2
              subst h3
              intro it hit
              simp only [List.mem_cons] at hit
              rcases hit with rfl | hit
              · exact round_share_idem _
              · exact ih _ _ _ _ _ _ hrec it hit

theorem process_by_item_ok_rounded (g : ℕ → String) (p : BillCreateIn) (s t : ℚ)
    (its : List BillItem) (us : List UserShare)
    (h : process_by_item g p = Except.ok (s, t, its, us)) :
    (∀ it ∈ its, round_share it.total_price = it.total_price) ∧
    (∀ u ∈ us, round_share u.share = u.share) := by
  simp only [process_by_item] at h
  cases hl : processByItemLoop g 0 [] [] p.items with
  | error e => rw [hl] at h; simp at h
  | ok r =>
    obtain ⟨bis, acc, pmap⟩ := r
    rw [hl] at h
    simp only [] at h
    cases hb : buildShares pmap (1 + p.tax / 100) acc with
    | error e => rw [hb] at h; simp at h
    | ok shares =>
      rw [hb] at h
      simp only [Except.ok.injEq, Prod.mk.injEq] at h
      obtain ⟨-, -, h3, h4⟩ := h
      subst h3
      subst h4
      exact ⟨processByItemLoop_rounded g 0 [] [] p.items bis acc pmap hl,
        buildShares_rounded pmap (1 + p.tax / 100) acc shares hb⟩

theorem process_equally_ok_rounded (g : ℕ → String) (p : BillCreateIn) (event : Events)
    (s t : ℚ) (its : List BillItem) (us : List UserShare)
    (h : process_equally g p event = Except.ok (s, t, its, us)) :
    (∀ it ∈ its, round_share it.total_price = it.total_price) ∧
    (∀ u ∈ us, round_share u.share = u.share) := by
  simp only [process_equally] at h
  split at h
  · simp at h
  · cases hi : simpleItems g 0 p.items with
    | error e => rw [hi] at h; simp at h
    | ok bis =>
      rw [hi] at h
      simp only [Except.ok.injEq, Prod.mk.injEq] at h
      obtain ⟨-, -, h3, h4⟩ := h
      subst h3
      subst h4
      refine ⟨simpleItems_rounded g 0 p.items bis hi, ?_⟩
      intro u hu
      obtain ⟨q, -, rfl⟩ := List.mem_map.mp hu
      exact round_share_idem _

theorem process_manual_ok_rounded (g : ℕ → String) (p : BillCreateIn)
    (s t : ℚ) (its : List BillItem) (us : List UserShare)
    (h : process_manual g p = Except.ok (s, t, its, us)) :
    (∀ it ∈ its, round_share it.total_price = it.total_price) ∧
    (∀ u ∈ us, round_share u.share = u.share) := by
  simp only [process_manual] at h
  split at h
  · simp at h
  · split at h
    · simp at h
    · cases hi : simpleItems g 0 p.items with
      | error e => rw [hi] at h; simp at h
      | ok bis =>
        rw [hi] at h
        simp only [Except.ok.injEq, Prod.mk.injEq] at h
        obtain ⟨-, -, h3, h4⟩ := h
        subst h3
        subst h4
        refine ⟨simpleItems_rounded g 0 p.items bis hi, ?_⟩
        intro u hu
        obtain ⟨q, -, rfl⟩ := List.mem_map.mp hu
        exact round_share_idem _

/-- Counterexample to C8 as stated: an accepted bill (one item priced
0.001, no tax) stores `subtotal = 0.001`, which is **not** equal to the
2-decimal rounding (0) of the sum of `quantity * unit_price`; the
processors return the subtotal without passing it through `_round_share`. -/
theorem C8_counterexample :
    create_bill gid cpTiny (some ev1) cu0 bid0 0 = Except.ok billTiny ∧
    billTiny.subtotal = 1 / 1000 ∧
    round_share ((cpTiny.items.map lineTotal).sum) = 0 ∧
    (1 / 1000 : ℚ) ≠ 0 := by
  refine ⟨by with_unfolding_all rfl, by with_unfolding_all rfl, by with_unfolding_all rfl, by norm_num⟩

/-- C8 amended: of the stored monetary outputs, `total_amount`, every
item's `total_price` and every per-user share are passed through
`_round_share` (so they are 2-decimal stable), for all three policies; the
stored `subtotal`, however, is the exact (unrounded) sum of
`quantity * unit_price` over the items. -/
theorem C8_rounding_amended (g : ℕ → String) (p : BillCreateIn)
    (look : Option Events) (cu bid : String) (now : ℕ) (bill : Bills)
    (h : create_bill g p look cu bid now = Except.ok bill) :
    bill.subtotal = (p.items.map lineTotal).sum ∧
    round_share bill.total_amount = bill.total_amount ∧
    (∀ it ∈ bill.items, round_share it.total_price = it.total_price) ∧
    (∀ u ∈ bill.per_user_shares, round_share u.share = u.share) := by
  obtain ⟨event, s, t, its, us, -, hproc, hsub, htot, hits, hus, htax, -, -, -, -⟩ :=
    create_bill_ok_fields g p look cu bid now bill h
  have hst : s = calculate_subtotal p.items ∧ t = round_share (calculate_total_amount s p.tax) := by
    cases hb : p.bill_split_type with
    | by_item => rw [hb] at hproc; exact process_by_item_ok_totals g p s t its us hproc
    | equally => rw [hb] at hproc; exact process_equally_ok_totals g p event s t its us hproc
    | manual => rw [hb] at hproc; exact process_manual_ok_totals g p s t its us hproc
  have hrounded : (∀ it ∈ its, round_share it.total_price = it.total_price) ∧
      (∀ u ∈ us, round_share u.share = u.share) := by
    cases hb : p.bill_split_type with
    | by_item => rw [hb] at hproc; exact process_by_item_ok_rounded g p s t its us hproc
    | equally => rw [hb] at hproc; exact process_equally_ok_rounded g p event s t its us hproc
    | manual => rw [hb] at hproc; exact process_manual_ok_rounded g p s t its us hproc
  refine ⟨?_, ?_, ?_, ?_⟩
  · rw [hsub, hst.1]
    rfl
  · rw [htot, hst.2]
    exact round_share_idem _
  · rw [hits]
    exact hrounded.1
  · rw [hus]
    exact hrounded.2

/-- Witness for C8 amended on the concrete equal-split fixture. -/
theorem C8_witness :
    billEq0.subtotal = (cpEq.items.map lineTotal).sum ∧
    round_share billEq0.total_amount = billEq0.total_amount :=
  ⟨(C8_rounding_amended gid cpEq (some ev1) cu0 bid0 0 billEq0 (by with_unfolding_all rfl)).1,
   (C8_rounding_amended gid cpEq (some ev1) cu0 bid0 0 billEq0 (by with_unfolding_all rfl)).2.1⟩

/-! Lemmas and theorem for C7: by-item validation and propagation. -/

theorem itemWellFormed_destruct (i : RawItem) (h : itemWellFormed i = true) :
    ∃ nm r0 rs st ist, i.name = some nm ∧ i.split_between = some (r0 :: rs) ∧
      i.split_type = some st ∧ ItemSplitType.ofString st = some ist := by
  unfold itemWellFormed at h
  simp only [Bool.and_eq_true] at h
  obtain ⟨⟨⟨h1, h2⟩, h3⟩, h4⟩ := h
  obtain ⟨nm, hnm⟩ := Option.isSome_iff_exists.mp h1
  obtain ⟨l, hl⟩ := Option.isSome_iff_exists.mp h2
  cases l with
  | nil => rw [hl] at h3; simp at h3
  | cons r0 rs =>
    cases hst : i.split_type with
    | none => rw [hst] at h4; simp at h4
    | some st =>
      rw [hst] at h4
      simp only [Option.some_bind] at h4
      obtain ⟨ist, hoi⟩ := Option.isSome_iff_exists.mp h4
      exact ⟨nm, r0, rs, st, ist, hnm, hl, rfl, hoi⟩

theorem processByItemLoop_error (g : ℕ → String) (n : ℕ) (acc : List (String × ℚ))
    (pmap : List (String × Participants)) (pre : List RawItem) (bad : RawItem)
    (rest : List RawItem)
    (hpre : ∀ i ∈ pre, itemWellFormed i = true) (hbad : itemDefective bad = true) :
    processByItemLoop g n acc pmap (pre ++ bad :: rest) =
      Except.error (if bad.split_between = none ∨ bad.split_between = some [] then BillError.missingSplitBetween (bad.name.getD "unknown") else BillError.missingSplitType (bad.name.getD "unknown")) := by
  induction pre generalizing n acc pmap with
  | nil =>
    rw [List.nil_append]
    rcases hsb : bad.split_between with _ | l
    · simp [processByItemLoop, hsb]
    · cases l with
      | nil => simp [processByItemLoop, hsb]
      | cons r0 rs =>
        have hst : bad.split_type = none := by
          simp [itemDefective, hsb, Option.isNone_iff_eq_none] at hbad
          exact hbad
        simp [processByItemLoop, hsb, hst]
  | cons i pre2 ih =>
    have hwf := hpre i (by simp)
    obtain ⟨nm, r0, rs, st, ist, hnm, hsb, hst, hoi⟩ := itemWellFormed_destruct i hwf
    rw [List.cons_append]
    simp only [processByItemLoop, hsb, hst, hoi, hnm]
    rw [ih (n + 1) _ _ (fun x hx => hpre x (List.mem_cons_of_mem i hx))]

/-- C7: for a by-item creation whose item list contains a defective item
(missing or empty `split_between`, or missing `split_type`) preceded only
by well-formed items, the split computation fails with a 400 validation
error that carries the offending item's display name, and `create_bill`
propagates that same error unchanged, producing no bill. -/
theorem C7_by_item_validation (g : ℕ → String) (p : BillCreateIn) (event : Events)
    (cu bid : String) (now : ℕ) (pre : List RawItem) (bad : RawItem) (rest : List RawItem)
    (hitems : p.items = pre ++ bad :: rest)
    (hpre : ∀ i ∈ pre, itemWellFormed i = true)
    (hbad : itemDefective bad = true)
    (hsplit : p.bill_split_type = BillSplitType.by_item)
    (hcu : objectIdValid cu = true) :
    ∃ e, process_by_item g p = Except.error e ∧
      (e = BillError.missingSplitBetween (bad.name.getD "unknown") ∨
       e = BillError.missingSplitType (bad.name.getD "unknown")) ∧
      create_bill g p (some event) cu bid now = Except.error e := by
  have hloop := processByItemLoop_error g 0 [] [] pre bad rest hpre hbad
  rw [← hitems] at hloop
  have hp : process_by_item g p =
      Except.error (if bad.split_between = none ∨ bad.split_between = some [] then BillError.missingSplitBetween (bad.name.getD "unknown") else BillError.missingSplitType (bad.name.getD "unknown")) := by
    simp [process_by_item, hloop]
  refine ⟨_, hp, ?_, ?_⟩
  · by_cases hc : bad.split_between = none ∨ bad.split_between = some []
    · exact Or.inl (if_pos hc)
    · exact Or.inr (if_neg hc)
  · simp [create_bill, hcu, hsplit, hp]

/-- Witness for C7 on the concrete payload whose second item lacks split
metadata: the error names the item and creation fails with it. -/
theorem C7_witness :
    process_by_item gid cpBad = Except.error (BillError.missingSplitBetween "Mystery") ∧
    create_bill gid cpBad (some ev1) cu0 bid0 0 = Except.error (BillError.missingSplitBetween "Mystery") := by
  have hv : process_by_item gid cpBad = Except.error (BillError.missingSplitBetween "Mystery") := by
    with_unfolding_all rfl
  obtain ⟨e, h1, -, h3⟩ := C7_by_item_validation gid cpBad ev1 cu0 bid0 0 [itemSoupOk]
    itemMystery [] rfl (by decide) (by decide) rfl (by decide)
  have he : e = BillError.missingSplitBetween "Mystery" := by
    have h2 := h1.symm.trans hv
    injection h2
  exact ⟨hv, he ▸ h3⟩

/-! Association-list lemmas for the by-item accumulator (C1). -/

theorem any_key_iff {α : Type} (a : List (String × α)) (k : String) :
    (a.any (fun kv => kv.1 == k) = true) ↔ k ∈ a.map Prod.fst := by
  simp [List.any_eq_true, List.mem_map]

theorem keys_accAdd (a : List (String × ℚ)) (k : String) (v : ℚ) :
    (accAdd a k v).map Prod.fst = insertKey (a.map Prod.fst) k := by
  unfold accAdd insertKey
  by_cases h : k ∈ a.map Prod.fst
  · rw [if_pos ((any_key_iff a k).mpr h), if_pos h, List.map_map]
    apply List.map_congr_left
    intro kv _
    by_cases hkv : kv.1 = k <;> simp [hkv]
  · rw [if_neg (fun hc => h ((any_key_iff a k).mp hc)), if_neg h, List.map_append]
    rfl

theorem keys_mapPut (m : List (String × Participants)) (k : String) (q : Participants) :
    (mapPut m k q).map Prod.fst = insertKey (m.map Prod.fst) k := by
  unfold mapPut insertKey
  by_cases h : k ∈ m.map Prod.fst
  · rw [if_pos ((any_key_iff m k).mpr h), if_pos h, List.map_map]
    apply List.map_congr_left
    intro kv _
    by_cases hkv : kv.1 = k <;> simp [hkv]
  · rw [if_neg (fun hc => h ((any_key_iff m k).mp hc)), if_neg h, List.map_append]
    rfl

theorem lookupAmt_nil (k : String) : lookupAmt [] k = 0 := rfl

theorem lookupAmt_cons (kv : String × ℚ) (rest : List (String × ℚ)) (k1 : String) :
    lookupAmt (kv :: rest) k1 = if kv.1 = k1 then kv.2 else lookupAmt rest k1 := by
  by_cases hp : kv.1 = k1
  · rw [if_pos hp]
    unfold lookupAmt
    rw [List.find?_cons_of_pos _ (by simp [hp])]
  · rw [if_neg hp]
    unfold lookupAmt
    rw [List.find?_cons_of_neg _ (by simp [hp])]

theorem lookupAmt_update_mem (a : List (String × ℚ)) (k : String) (v : ℚ) (k1 : String) :
    lookupAmt (a.map (fun kv => if kv.1 == k then (kv.1, kv.2 + v) else kv)) k1 =
      lookupAmt a k1 + (if k1 = k ∧ k ∈ a.map Prod.fst then v else 0) := by
  induction a with
  | nil => simp [lookupAmt]
  | cons kv rest ih =>
    have hfst : (if (kv.1 == k) = true then (kv.1, kv.2 + v) else kv).1 = kv.1 := by
      by_cases hkv : (kv.1 == k) = true <;> simp [hkv]
    rw [List.map_cons, lookupAmt_cons, lookupAmt_cons, hfst]
    by_cases h1 : kv.1 = k1
    · rw [if_pos h1, if_pos h1]
      by_cases h2 : kv.1 = k
      · have hbeq : (kv.1 == k) = true := beq_iff_eq.mpr h2
        have hcond : k1 = k ∧ k ∈ (kv :: rest).map Prod.fst :=
          ⟨h1.symm.trans h2, by simp [List.mem_cons, h2.symm]⟩
        rw [if_pos hcond]
        simp [hbeq]
      · have hbeq : (kv.1 == k) = false := by simp [h2]
        have hcond : ¬ (k1 = k ∧ k ∈ (kv :: rest).map Prod.fst) := by
          intro hc
          exact h2 (h1.trans hc.1)
        rw [if_neg hcond]
        simp [hbeq]
    · rw [if_neg h1, if_neg h1, ih]
      congr 1
      by_cases h3 : k1 = k
      · have hk : ¬ (k = kv.1) := fun hh => h1 (hh ▸ h3.symm)
        simp only [List.map_cons, List.mem_cons, hk, false_or]
      · simp [h3]

theorem lookupAmt_append_single (a : List (String × ℚ)) (k : String) (v : ℚ) (k1 : String)
    (hk : k ∉ a.map Prod.fst) :
    lookupAmt (a ++ [(k, v)]) k1 = lookupAmt a k1 + (if k1 = k then v else 0) := by
  induction a with
  | nil =>
    rw [List.nil_append]
    by_cases h : k = k1
    · rw [lookupAmt_cons, if_pos h, if_pos h.symm]
      simp [lookupAmt]
    · rw [lookupAmt_cons, if_neg h, if_neg (fun hh => h hh.symm)]
      simp [lookupAmt]
  | cons kv rest ih =>
    have hk1 : k ∉ rest.map Prod.fst := fun hh => hk (by simp [hh])
    have hk2 : kv.1 ≠ k := fun hh => hk (by simp [hh.symm])
    rw [List.cons_append, lookupAmt_cons, lookupAmt_cons, ih hk1]
    by_cases h1 : kv.1 = k1
    · rw [if_pos h1, if_pos h1]
      have hne : k1 ≠ k := fun hh => hk2 (h1.trans hh)
      simp [hne]
    · rw [if_neg h1, if_neg h1]

theorem lookupAmt_accAdd (a : List (String × ℚ)) (k : String) (v : ℚ) (k1 : String) :
    lookupAmt (accAdd a k v) k1 = lookupAmt a k1 + (if k1 = k then v else 0) := by
  unfold accAdd
  by_cases hmem : (a.any (fun kv => kv.1 == k)) = true
  · rw [if_pos hmem, lookupAmt_update_mem]
    have hk : k ∈ a.map Prod.fst := (any_key_iff a k).mp hmem
    congr 1
    by_cases h : k1 = k <;> simp [h, hk]
  · rw [if_neg hmem]
    exact lookupAmt_append_single a k v k1 (fun hh => hmem ((any_key_iff a k).mpr hh))

/-! Fold, nodup and lookup lemmas for the by-item loop (C1). -/

theorem lookupAmt_foldl_accAdd (ps : List Participants) (v : ℚ) (acc : List (String × ℚ))
    (k1 : String) :
    lookupAmt (ps.foldl (fun a q => accAdd a (participant_key q) v) acc) k1 =
      lookupAmt acc k1 +
        (((ps.filter (fun q => participant_key q == k1)).length : ℚ)) * v := by
  induction ps generalizing acc with
  | nil => simp
  | cons q ps2 ih =>
    rw [List.foldl_cons, ih, lookupAmt_accAdd]
    by_cases h : participant_key q = k1
    · rw [List.filter_cons_of_pos (by simp [h]), if_pos h.symm]
      push_cast [List.length_cons]
      ring
    · rw [List.filter_cons_of_neg (by simp [h]), if_neg (fun hh => h hh.symm)]
      ring

theorem keys_foldl_accAdd (ps : List Participants) (v : ℚ) (acc : List (String × ℚ)) :
    (ps.foldl (fun a q => accAdd a (participant_key q) v) acc).map Prod.fst =
      (ps.map participant_key).foldl insertKey (acc.map Prod.fst) := by
  induction ps generalizing acc with
  | nil => rfl
  | cons q ps2 ih => rw [List.foldl_cons, ih, keys_accAdd, List.map_cons, List.foldl_cons]

theorem keys_foldl_mapPut (ps : List Participants) (pmap : List (String × Participants)) :
    (ps.foldl (fun m q => mapPut m (participant_key q) q) pmap).map Prod.fst =
      (ps.map participant_key).foldl insertKey (pmap.map Prod.fst) := by
  induction ps generalizing pmap with
  | nil => rfl
  | cons q ps2 ih => rw [List.foldl_cons, ih, keys_mapPut, List.map_cons, List.foldl_cons]

theorem mapPut_inv (m : List (String × Participants)) (q : Participants)
    (hm : ∀ kv ∈ m, participant_key kv.2 = kv.1) :
    ∀ kv ∈ mapPut m (participant_key q) q, participant_key kv.2 = kv.1 := by
  unfold mapPut
  by_cases h : (m.any (fun kv => kv.1 == participant_key q)) = true
  · rw [if_pos h]
    intro kv hkv
    obtain ⟨kv0, hkv0, hupd⟩ := List.mem_map.mp hkv
    by_cases hb : kv0.1 = participant_key q
    · rw [if_pos (beq_iff_eq.mpr hb)] at hupd
      rw [← hupd]
      exact hb.symm
    · rw [if_neg (fun hh => hb (beq_iff_eq.mp hh))] at hupd
      rw [← hupd]
      exact hm kv0 hkv0
  · rw [if_neg h]
    intro kv hkv
    rcases List.mem_append.mp hkv with hin | hin
    · exact hm kv hin
    · rw [List.mem_singleton.mp hin]
  
theorem mapPut_foldl_inv (ps : List Participants) (pmap : List (String × Participants))
    (hm : ∀ kv ∈ pmap, participant_key kv.2 = kv.1) :
    ∀ kv ∈ ps.foldl (fun m q => mapPut m (participant_key q) q) pmap,
      participant_key kv.2 = kv.1 := by
  induction ps generalizing pmap with
  | nil => exact hm
  | cons q ps2 ih =>
    rw [List.foldl_cons]
    exact ih (mapPut pmap (participant_key q) q) (mapPut_inv pmap q hm)

theorem insertKey_nodup (ks : List String) (k : String) (h : ks.Nodup) :
    (insertKey ks k).Nodup := by
  unfold insertKey
  by_cases hm : k ∈ ks
  · rw [if_pos hm]
    exact h
  · rw [if_neg hm]
    rw [List.nodup_append]
    exact ⟨h, List.nodup_singleton k, by simpa using hm⟩

theorem foldl_insertKey_nodup (l : List String) (ks : List String) (h : ks.Nodup) :
    (l.foldl insertKey ks).Nodup := by
  induction l generalizing ks with
  | nil => exact h
  | cons k l2 ih => exact ih (insertKey ks k) (insertKey_nodup ks k h)

theorem lookupAmt_of_mem_nodup (a : List (String × ℚ)) (kv : String × ℚ)
    (hnd : (a.map Prod.fst).Nodup) (hmem : kv ∈ a) :
    lookupAmt a kv.1 = kv.2 := by
  induction a with
  | nil => cases hmem
  | cons kv0 rest ih =>
    rw [List.map_cons, List.nodup_cons] at hnd
    rcases List.mem_cons.mp hmem with rfl | hmem2
    · rw [lookupAmt_cons, if_pos rfl]
    · have hne : kv0.1 ≠ kv.1 := by
        intro hh
        exact hnd.1 (hh ▸ List.mem_map_of_mem Prod.fst hmem2)
      rw [lookupAmt_cons, if_neg hne]
      exact ih hnd.2 hmem2

theorem lookupP_isSome_of_mem (m : List (String × Participants)) (k : String)
    (h : k ∈ m.map Prod.fst) : (lookupP m k).isSome = true := by
  obtain ⟨kv, hkv, hk⟩ := List.mem_map.mp h
  unfold lookupP
  have hfind : (m.find? (fun kv => kv.1 == k)).isSome = true :=
    List.find?_isSome.mpr ⟨kv, hkv, by simp [hk]⟩
  obtain ⟨kv2, hkv2⟩ := Option.isSome_iff_exists.mp hfind
  rw [hkv2]
  rfl

theorem lookupP_key (m : List (String × Participants)) (k : String) (q : Participants)
    (hm : ∀ kv ∈ m, participant_key kv.2 = kv.1) (h : lookupP m k = some q) :
    participant_key q = k := by
  unfold lookupP at h
  cases hfind : m.find? (fun kv => kv.1 == k) with
  | none => rw [hfind] at h; cases h
  | some kv =>
    rw [hfind] at h
    have hq : kv.2 = q := by simpa using h
    have hpred := List.find?_some hfind
    have hmem := List.mem_of_find?_eq_some hfind
    rw [← hq, hm kv hmem]
    exact beq_iff_eq.mp hpred

theorem buildShares_ok (pmap : List (String × Participants)) (taxMul : ℚ)
    (acc : List (String × ℚ))
    (hmem : ∀ k ∈ acc.map Prod.fst, (lookupP pmap k).isSome = true) :
    buildShares pmap taxMul acc =
      Except.ok (acc.map (fun kv => ⟨PName.part ((lookupP pmap kv.1).getD default), round_share (kv.2 * taxMul)⟩)) := by
  induction acc with
  | nil => rfl
  | cons kv rest ih =>
    have hk := hmem kv.1 (by simp)
    obtain ⟨q, hq⟩ := Option.isSome_iff_exists.mp hk
    simp only [buildShares, hq, List.map_cons]
    rw [ih (fun k hk2 => hmem k (by simp [hk2]))]
    simp [hq]

/-! Main loop characterisation and theorem for C1: the by-item policy. -/

theorem processByItemLoop_ok (g : ℕ → String) (items : List RawItem) :
    ∀ (n : ℕ) (acc : List (String × ℚ)) (pmap : List (String × Participants)),
    (∀ i ∈ items, itemWellFormed i = true) →
    ∃ bis accF pmapF,
      processByItemLoop g n acc pmap items = Except.ok (bis, accF, pmapF) ∧
      accF.map Prod.fst = (byItemKeys items).foldl insertKey (acc.map Prod.fst) ∧
      pmapF.map Prod.fst = (byItemKeys items).foldl insertKey (pmap.map Prod.fst) ∧
      (∀ k1, lookupAmt accF k1 = lookupAmt acc k1 + specContribution items k1) ∧
      ((∀ kv ∈ pmap, participant_key kv.2 = kv.1) →
        ∀ kv ∈ pmapF, participant_key kv.2 = kv.1) := by
  induction items with
  | nil =>
    intro n acc pmap _
    exact ⟨[], acc, pmap, rfl, by simp [byItemKeys], by simp [byItemKeys],
      by intro k1; simp [specContribution], fun h => h⟩
  | cons i rest ih =>
    intro n acc pmap hwf
    obtain ⟨nm, r0, rs, st, ist, hnm, hsb, hst, hoi⟩ :=
      itemWellFormed_destruct i (hwf i (by simp))
    obtain ⟨bis, accF, pmapF, heq, hkeysA, hkeysP, hamt, hinv⟩ :=
      ih (n + 1)
        (((r0 :: rs).map RawParticipant.normalize).foldl (fun a p => accAdd a (participant_key p) (i.quantity.getD 1 * i.unit_price.getD 0 / ((((r0 :: rs).map RawParticipant.normalize).length : ℕ) : ℚ))) acc)
        (((r0 :: rs).map RawParticipant.normalize).foldl (fun m p => mapPut m (participant_key p) p) pmap)
        (fun x hx => hwf x (by simp [hx]))
    have hps : itemParticipants i = (r0 :: rs).map RawParticipant.normalize := by
      simp [itemParticipants, hsb]
    have hkeys_cons : byItemKeys (i :: rest) =
        ((r0 :: rs).map RawParticipant.normalize).map participant_key ++ byItemKeys rest := by
      simp [byItemKeys, hps]
    refine ⟨{ id := g n, name := nm, quantity := i.quantity.getD 1, unit_price := i.unit_price.getD 0, total_price := round_share (i.quantity.getD 1 * i.unit_price.getD 0), split_type := some ist, split_between := some ((r0 :: rs).map RawParticipant.normalize) } :: bis, accF, pmapF, ?_, ?_, ?_, ?_, ?_⟩
    · simp only [processByItemLoop, hsb, hst, hoi, hnm, heq]
    · rw [hkeysA, keys_foldl_accAdd, hkeys_cons, List.foldl_append]
    · rw [hkeysP, keys_foldl_mapPut, hkeys_cons, List.foldl_append]
    · intro k1
      rw [hamt k1, lookupAmt_foldl_accAdd]
      have hcontrib : itemContribution i k1 =
          ((((r0 :: rs).map RawParticipant.normalize).filter (fun q => participant_key q == k1)).length : ℚ) * (i.quantity.getD 1 * i.unit_price.getD 0 / ((((r0 :: rs).map RawParticipant.normalize).length : ℕ) : ℚ)) := by
        simp [itemContribution, hps, lineTotal]
      simp only [specContribution, List.map_cons, List.sum_cons]
      rw [show (List.map (fun i => itemContribution i k1) rest).sum = specContribution rest k1 from rfl, hcontrib]
      simp only [List.map_cons]
      ring
    · intro hpinv
      exact hinv (mapPut_foldl_inv _ pmap hpinv)

/-- C1: for a by-item creation whose items all carry a non-empty
`split_between`, a valid `split_type` and a name, the computation succeeds;
each item contributes `total_price / count(split_between)` (with
`total_price = quantity * unit_price`) once per occurrence of an identity
key (`identityKey`: user id string if present, else name) to a running
per-identity accumulator; the resulting `per_user_shares` carry exactly one
entry per distinct identity key (in first-occurrence order), each equal to
the accumulated total multiplied by `(1 + tax/100)` and rounded exactly
once. -/
theorem C1_by_item_shares (g : ℕ → String) (p : BillCreateIn)
    (hwf : ∀ i ∈ p.items, itemWellFormed i = true) :
    ∃ bis shares,
      process_by_item g p = Except.ok (calculate_subtotal p.items, round_share (calculate_total_amount (calculate_subtotal p.items) p.tax), bis, shares) ∧
      shares.map shareKey = firstKeys (byItemKeys p.items) ∧
      (shares.map shareKey).Nodup ∧
      (∀ u ∈ shares, u.share = round_share (specContribution p.items (shareKey u) * (1 + p.tax / 100))) := by
  obtain ⟨bis, accF, pmapF, heq, hkeysA, hkeysP, hamt, hinv⟩ :=
    processByItemLoop_ok g p.items 0 [] [] hwf
  have hkeq : accF.map Prod.fst = pmapF.map Prod.fst := by
    rw [hkeysA, hkeysP]
    rfl
  have hinv2 : ∀ kv ∈ pmapF, participant_key kv.2 = kv.1 := hinv (by simp)
  have hmem : ∀ k ∈ accF.map Prod.fst, (lookupP pmapF k).isSome = true := by
    intro k hk
    exact lookupP_isSome_of_mem pmapF k (hkeq ▸ hk)
  have hbuild := buildShares_ok pmapF (1 + p.tax / 100) accF hmem
  have hndA : (accF.map Prod.fst).Nodup := by
    rw [hkeysA]
    exact foldl_insertKey_nodup _ _ (by simp)
  have hkeyfun : ∀ kv ∈ accF, shareKey (⟨PName.part ((lookupP pmapF kv.1).getD default), round_share (kv.2 * (1 + p.tax / 100))⟩ : UserShare) = kv.1 := by
    intro kv hkv
    have hks := hmem kv.1 (List.mem_map_of_mem Prod.fst hkv)
    obtain ⟨q, hq⟩ := Option.isSome_iff_exists.mp hks
    have := lookupP_key pmapF kv.1 q hinv2 hq
    simp [shareKey, hq, this]
  have hmapkeys : (accF.map (fun kv => (⟨PName.part ((lookupP pmapF kv.1).getD default), round_share (kv.2 * (1 + p.tax / 100))⟩ : UserShare))).map shareKey = accF.map Prod.fst := by
    rw [List.map_map]
    exact List.map_congr_left (fun kv hkv => hkeyfun kv hkv)
  have hval : ∀ kv ∈ accF, kv.2 = specContribution p.items kv.1 := by
    intro kv hkv
    have h2 := hamt kv.1
    rw [lookupAmt_of_mem_nodup accF kv hndA hkv] at h2
    simpa [lookupAmt] using h2
  refine ⟨bis, accF.map (fun kv => (⟨PName.part ((lookupP pmapF kv.1).getD default), round_share (kv.2 * (1 + p.tax / 100))⟩ : UserShare)), ?_, ?_, ?_, ?_⟩
  · simp only [process_by_item, heq, hbuild]
  · rw [hmapkeys, hkeysA]
    simp [firstKeys, firstKeysFrom]
  · rw [hmapkeys]
    exact hndA
  · intro u hu
    obtain ⟨kv, hkv, rfl⟩ := List.mem_map.mp hu
    rw [hkeyfun kv hkv]
    rw [show (⟨PName.part ((lookupP pmapF kv.1).getD default), round_share (kv.2 * (1 + p.tax / 100))⟩ : UserShare).share = round_share (kv.2 * (1 + p.tax / 100)) from rfl, hval kv hkv]

/-- Witness for C1 on the concrete by-item payload (Soup 300000 split
between Alice and Bob, Wings 2 x 120000 for Bob alone, tax 10%). -/
theorem C1_witness :
    process_by_item gid cpItem = Except.ok (540000, 594000, [⟨"item_0", "Soup", 1, 300000, 300000, some ItemSplitType.everyone, some [alice, bob]⟩, ⟨"item_1", "Wings", 2, 120000, 240000, some ItemSplitType.custom, some [bob]⟩], [⟨PName.part alice, 165000⟩, ⟨PName.part bob, 429000⟩]) ∧
    round_share (specContribution cpItem.items (participant_key alice) * (1 + cpItem.tax / 100)) = 165000 := by
  have hv : process_by_item gid cpItem = Except.ok (540000, 594000, [⟨"item_0", "Soup", 1, 300000, 300000, some ItemSplitType.everyone, some [alice, bob]⟩, ⟨"item_1", "Wings", 2, 120000, 240000, some ItemSplitType.custom, some [bob]⟩], [⟨PName.part alice, 165000⟩, ⟨PName.part bob, 429000⟩]) := by
    with_unfolding_all rfl
  obtain ⟨bis, shares, h1, -, -, hshare⟩ := C1_by_item_shares gid cpItem (by decide)
  have h2 := h1.symm.trans hv
  simp only [Except.ok.injEq, Prod.mk.injEq] at h2
  obtain ⟨-, -, -, hsh⟩ := h2
  refine ⟨hv, ?_⟩
  have halice := hshare ⟨PName.part alice, 165000⟩ (by rw [hsh]; simp)
  exact halice.symm
